import Mathlib

/-!
Verification of the AnimeVerse nested comment/thread engine.

This file shallowly embeds the client-side thread mutation engine of the
AnimeVerse frontend (the `CommentSection` component, the
`EpisodeCommentSection` component, the staff-chat page and the REST client)
and proves or refutes the specified properties of `insertReply`,
`editText` (source name `updateInState`), `softDelete` (source name
`removeOrMarkComment`), `getInitials`, the delete round-trip and the
transient compose state.

Two embeddings of the tree operations are given:
* a value-level one (`CNode`, `updateInState`, `addReplyToComment`,
  `removeOrMarkWith`) capturing the content of the resulting forest, and
* a heap-level one (`HNode`, `Heap`, `updateInStateRef`,
  `addReplyToCommentRef`, `removeOrMarkCommentRef`) capturing JavaScript
  object identity, allocation (object spread) and in-place field
  assignment, used for the frame/aliasing property.
-/

/--
Value-level model of the TypeScript `Comment` / `EpisodeComment` shape
(`src/lib/types`):

```ts
export type Comment = {
  id: string; author: Partial<User>; text: string; timestamp: string;
  mediaUrl?: string; parent?: Comment; replies?: Comment[]; isDeleted?: boolean;
};
```

`text` is declared `string` in TypeScript, but the source assigns it the
empty string (never `undefined`) in tombstones while the specification
speaks of an undefined `text`; we therefore model `text` as
`Option String` so that "undefined" (`none`) is representable and
distinguishable from the empty string (`some ""`).  `author` is kept as an
opaque display string, `parent` is abstracted to the flag `hasParent`
(the only use of `parent` in the engine is the truthiness test
`!c.parent` in `topLevelComments`), `replies` keeps its optionality
(`undefined` and `[]` behave differently in the recursion guards), and
the optional `isDeleted` is modelled as a `Bool` (the code only ever
tests its truthiness and only ever writes `true`).
-/
inductive CNode where
  | mk (id : String) (author : String) (text : Option String) (timestamp : String)
       (mediaUrl : Option String) (hasParent : Bool)
       (replies : Option (List CNode)) (isDeleted : Bool) : CNode

/-- Field accessor for the node id. -/
def CNode.id : CNode → String
  | .mk i _ _ _ _ _ _ _ => i

/-- Field accessor for the author display string. -/
def CNode.author : CNode → String
  | .mk _ au _ _ _ _ _ _ => au

/-- Field accessor for the optional text body. -/
def CNode.text : CNode → Option String
  | .mk _ _ tx _ _ _ _ _ => tx

/-- Field accessor for the timestamp. -/
def CNode.timestamp : CNode → String
  | .mk _ _ _ ts _ _ _ _ => ts

/-- Field accessor for the optional media URL. -/
def CNode.mediaUrl : CNode → Option String
  | .mk _ _ _ _ mu _ _ _ => mu

/-- Field accessor for the parent back-reference flag. -/
def CNode.hasParent : CNode → Bool
  | .mk _ _ _ _ _ hp _ _ => hp

/-- Field accessor for the optional replies array. -/
def CNode.replies : CNode → Option (List CNode)
  | .mk _ _ _ _ _ _ rs _ => rs

/-- Field accessor for the tombstone flag. -/
def CNode.isDeleted : CNode → Bool
  | .mk _ _ _ _ _ _ _ del => del

/--
Value-level translation of `updateInState`
(src/unnamed/part_001 lines 171-177, identically src/unnamed/part_006
lines 163-169), the engine of the spec operation `editText`:

```js
const updateInState = (list) => list.map(c => {
  if (c.id === updated.id) return { ...c, text: updated.text };
  if (c.replies) return { ...c, replies: updateInState(c.replies) };
  return c;
});
```

`uid` is `updated.id` and `newText` is `updated.text` (the server-returned
comment).  A matched node gets its `text` replaced and its replies are not
recursed into; an unmatched node with a defined replies array is rebuilt
around the recursively updated replies; an unmatched node with undefined
replies is returned unchanged.
-/
def updateInState (uid newText : String) : List CNode → List CNode
  | [] => []
  | .mk i au tx ts mu hp rs del :: rest =>
    (if i == uid then .mk i au (some newText) ts mu hp rs del
     else match rs with
       | some l => .mk i au tx ts mu hp (some (updateInState uid newText l)) del
       | none => .mk i au tx ts mu hp none del) :: updateInState uid newText rest

/--
Value-level translation of `addReplyToComment`
(src/unnamed/part_001 lines 186-197, identically src/unnamed/part_006
lines 178-189):

```js
const addReplyToComment = (comments, parentId, reply) => comments.map(c => {
  if (c.id === parentId) {
    const newReplies = [...(c.replies || []), reply];
    return { ...c, replies: newReplies };
  }
  if (c.replies) return { ...c, replies: addReplyToComment(c.replies, parentId, reply) };
  return c;
});
```

The matched parent gets `reply` appended as the last element of its
replies (an undefined replies array is treated as empty first).
-/
def addReplyToComment (pid : String) (reply : CNode) : List CNode → List CNode
  | [] => []
  | .mk i au tx ts mu hp rs del :: rest =>
    (if i == pid then .mk i au tx ts mu hp (some (rs.getD [] ++ [reply])) del
     else match rs with
       | some l => .mk i au tx ts mu hp (some (addReplyToComment pid reply l)) del
       | none => .mk i au tx ts mu hp none del) :: addReplyToComment pid reply rest

/--
Value-level translation of `removeOrMarkComment`
(src/unnamed/part_001 lines 214-226; src/unnamed/part_006 lines 206-218
is the same function with tombstone text `"[deleted]"` instead of `""`),
the engine of the spec operation `softDelete`:

```js
const removeOrMarkComment = (list) => list.reduce((acc, c) => {
  if (c.id === deletingCommentId) {
    if (c.replies && c.replies.length > 0) {
      acc.push({ ...c, text: tombText, isDeleted: true, mediaUrl: undefined });
    }
  } else {
    if (c.replies) c.replies = removeOrMarkComment(c.replies);
    acc.push(c);
  }
  return acc;
}, []);
```

The tombstone text is the parameter `tombText` (`some ""` in part_001,
`some "[deleted]"` in part_006).  A matched node with a nonempty replies
array is replaced by a tombstone that keeps its replies as they are (they
are not recursed into); a matched node with undefined or empty replies is
dropped from the list; an unmatched node keeps its identity, with its
replies (if defined) recursively processed.  At the value level the
in-place assignment `c.replies = ...` is a functional update; the
heap-level translation `removeOrMarkCommentRef` below models the
mutation itself.
-/
def removeOrMarkWith (tombText : Option String) (did : String) : List CNode → List CNode
  | [] => []
  | .mk i au tx ts mu hp rs del :: rest =>
    if i == did then
      (match rs with
       | some (r :: rl) =>
         [CNode.mk i au tombText ts none hp (some (r :: rl)) true]
       | _ => []) ++ removeOrMarkWith tombText did rest
    else
      (match rs with
       | some l => CNode.mk i au tx ts mu hp (some (removeOrMarkWith tombText did l)) del
       | none => CNode.mk i au tx ts mu hp none del) :: removeOrMarkWith tombText did rest

/-- The `removeOrMarkComment` of the anime comment section
(src/unnamed/part_001): tombstone text is the empty string. -/
def removeOrMarkComment : String → List CNode → List CNode :=
  removeOrMarkWith (some "")

/-- The `removeOrMarkComment` of the episode comment section
(src/unnamed/part_006): tombstone text is the string `"[deleted]"`. -/
def removeOrMarkCommentEpisode : String → List CNode → List CNode :=
  removeOrMarkWith (some "[deleted]")

/--
The dispatch in `handleCommentSubmit` (src/unnamed/part_001 lines
198-202), which is the spec operation `insertReply`:

```js
if (replyTo) {
  setComments(prev => addReplyToComment(prev, replyTo.id, addedComment));
} else {
  setComments(prev => [addedComment, ...prev]);
}
```

With a parent id the server-confirmed node is appended under that parent;
without one it is prepended to the top-level list.
-/
def insertReply (parentId : Option String) (node : CNode) (comments : List CNode) :
    List CNode :=
  match parentId with
  | some pid => addReplyToComment pid node comments
  | none => node :: comments

/-- Translation of `topLevelComments` (src/unnamed/part_001 line 245):
`comments.filter(c => !c.parent)`. -/
def topLevelComments (comments : List CNode) : List CNode :=
  comments.filter (fun c => !c.hasParent)

/--
Number of occurrences of the id `uid` anywhere in a forest (a
specification-side measure used to state uniqueness of ids; the backend
assigns globally unique ids, so well-formed forests have count at most
one for every id).
-/
def countId (uid : String) : List CNode → Nat
  | [] => 0
  | .mk i _ _ _ _ _ rs _ :: rest =>
    (if i == uid then 1 else 0) +
      (match rs with | some l => countId uid l | none => 0) + countId uid rest

/-- Specification-side functional update: replace the text of a node,
keeping every other field (mirrors the object spread
`{ ...c, text: updated.text }`). -/
def CNode.setText (t : String) : CNode → CNode
  | .mk i au _ ts mu hp rs del => .mk i au (some t) ts mu hp rs del

/-- Specification-side functional update: the tombstone
`{ ...c, text: tombText, isDeleted: true, mediaUrl: undefined }` — id,
author, timestamp, parent flag and replies are preserved. -/
def CNode.tombstoneWith (tombText : Option String) : CNode → CNode
  | .mk i au _ ts _ hp rs _ => .mk i au tombText ts none hp rs true

/-- Specification-side functional update: append `node` as the last
element of the replies (an undefined replies array counts as empty),
mirroring `{ ...c, replies: [...(c.replies || []), reply] }`. -/
def CNode.appendReply : CNode → CNode → CNode
  | .mk i au tx ts mu hp rs del, node => .mk i au tx ts mu hp (some (rs.getD [] ++ [node])) del

/-- Specification-side effect of `removeOrMarkComment` on the matched
node: a node with a nonempty replies array becomes a tombstone (kept in
place), a node with undefined or empty replies is dropped. -/
def softDeleteRes (tombText : Option String) (d : CNode) : List CNode :=
  match d.replies with
  | some (_ :: _) => [d.tombstoneWith tombText]
  | _ => []

/--
Descend a sub-forest transformation into the replies of one node (used to
state where in the forest an operation takes effect).  A node with an
undefined replies array is left unchanged.
-/
def descendReplies (g : List CNode → List CNode) : CNode → CNode
  | .mk i au tx ts mu hp rs del => .mk i au tx ts mu hp (rs.map g) del

/-- Replace the element at index `n` of a list by the (possibly empty)
list `r` of replacement nodes, splicing it in place. -/
def replaceIdx (r : CNode → List CNode) : Nat → List CNode → List CNode
  | _, [] => []
  | 0, c :: rest => r c ++ rest
  | n + 1, c :: rest => c :: replaceIdx r n rest

/-- Apply the function `f` to the element at index `n` of a list,
leaving all other elements unchanged. -/
def modifyIdx (f : CNode → CNode) : Nat → List CNode → List CNode
  | _, [] => []
  | 0, c :: rest => f c :: rest
  | n + 1, c :: rest => c :: modifyIdx f n rest

/--
The sub-forest of a forest reached by following the index path `q`:
`subForestAt [] F` is `F` itself, and `subForestAt (j :: q) F` descends
into the replies of the `j`-th element (failing if the index is out of
range or the replies are undefined).  A node of the forest is addressed
by a pair of a path `q` to its containing list and its index `i` in that
list.
-/
def subForestAt : List Nat → List CNode → Option (List CNode)
  | [], l => some l
  | j :: q, l =>
    match l[j]? with
    | some c =>
      match c.replies with
      | some rs => subForestAt q rs
      | none => none
    | none => none

/--
Splice the node list `r c` in place of the node `c` addressed by path `q`
and index `i`, leaving every other node of the forest unchanged.  The
characterization theorems below prove that each of the three mutation
engine operations equals `applyAt q i r` for its respective `r` whenever
the target id occurs exactly once, at `(q, i)`.
-/
def applyAt : List Nat → Nat → (CNode → List CNode) → List CNode → List CNode
  | [], i, r, l => replaceIdx r i l
  | j :: q, i, r, l => modifyIdx (descendReplies (applyAt q i r)) j l

/--
JavaScript `name.split(" ")` over the character list: split at every
single space, keeping empty tokens for adjacent separators, with
`"".split(" ") == [""]`.  (Helper for `splitOnSpace`.)
-/
def splitOnSpaceAux : List Char → List Char → List (List Char)
  | [], acc => [acc.reverse]
  | c :: cs, acc =>
    if c = ' ' then acc.reverse :: splitOnSpaceAux cs []
    else splitOnSpaceAux cs (c :: acc)

/-- JavaScript `name.split(" ")` over the character list. -/
def splitOnSpace (cs : List Char) : List (List Char) :=
  splitOnSpaceAux cs []

/--
Translation of `getInitials` from the anime comment section
(src/unnamed/part_001 lines 35-38, identically src/unnamed/part_006
lines 33-36):

```js
const getInitials = (name) => {
  if (typeof name !== 'string' || !name) return '';
  return name.split(' ').map(n => n[0]).join('').toUpperCase();
};
```

An undefined argument (`none`) or the empty string yields the empty
string.  Otherwise the name is split on single spaces, the first
character of each token is taken (JavaScript `n[0]` of an empty token is
`undefined`, which `join` renders as the empty string — matching
`t.take 1` of an empty list), the pieces are joined and upper-cased.
Upper-casing is the ASCII `Char.toUpper`, which agrees with JavaScript
`toUpperCase` on the ASCII names this is applied to.
-/
def getInitials : Option String → String
  | none => ""
  | some name =>
    if name = "" then ""
    else String.mk ((((splitOnSpace name.data).map (fun t => t.take 1)).flatten).map Char.toUpper)

/--
Translation of `getInitials` from the staff-chat page
(src/unnamed/part_015 lines 30-33):

```js
const getInitials = (name) => {
  if (!name) return 'U';
  return name.split(' ').map((n) => n[0]).join('').toUpperCase();
};
```

Unlike the comment-section versions, an undefined or empty name yields
the placeholder string `"U"`, not the empty string.
-/
def getInitialsStaffChat : Option String → String
  | none => "U"
  | some name =>
    if name = "" then "U"
    else String.mk ((((splitOnSpace name.data).map (fun t => t.take 1)).flatten).map Char.toUpper)

/--
Model of the flat `StaffChatMessage` list entry of the staff-chat page
(src/lib/types): messages form a flat list, threading is recorded by the
optional `parent` back-reference, abstracted here to the parent id.
-/
structure MNode where
  id : String
  text : Option String
  mediaUrl : Option String
  parentId : Option String
  isDeleted : Bool
deriving Repr, DecidableEq

/--
Translation of the state update inside `handleDeleteMessage`
(src/unnamed/part_015 lines 132-147):

```js
const hasReplies = messages.some(m => m.parent?.id === deletingMessage.id);
if (hasReplies) {
  setMessages(prev => prev.map(m => m.id === deletingMessage.id
    ? { ...m, isDeleted: true, text: "[deleted]", mediaUrl: undefined } : m));
} else {
  setMessages(prev => prev.filter(m => m.id !== deletingMessage.id));
}
```

A message some other message replies to is tombstoned with text
`"[deleted]"`; a message without replies is removed from the list.
-/
def handleDeleteMessage (did : String) (messages : List MNode) : List MNode :=
  let hasReplies := messages.any (fun m => m.parentId == some did)
  if hasReplies then
    messages.map (fun m =>
      if m.id == did then { m with isDeleted := true, text := some "[deleted]", mediaUrl := none }
      else m)
  else
    messages.filter (fun m => !(m.id == did))

/--
Outcome of one `fetch` round trip: either the promise rejects (network
unreachable, timeout — a transport error) or it resolves with an HTTP
response whose `ok` flag records whether the status was 2xx.  A
server-rejected request (permission denied, not-found) is a resolved
response with `ok = false`.
-/
inductive FetchOutcome where
  | transportError (msg : String)
  | response (ok : Bool) (body : String)

/--
Translation of `api.deleteComment` (src/unnamed/part_020 lines 259-264):

```js
export const deleteComment = async (animeId, commentId) => {
  await fetch(buildUrl(`/api/animes/.../comments/...`), { method: 'DELETE', ... });
}
```

Unlike `addComment` and `updateComment`, the response is NOT passed
through `handleResponse` (part_020 lines 17-32), so the promise rejects
only when `fetch` itself rejects (a transport error); a resolved response
with a non-ok status is silently ignored and the call resolves
successfully.
-/
def deleteComment : FetchOutcome → Except String Unit
  | .transportError msg => .error msg
  | .response _ _ => .ok ()

/--
Translation of `handleDeleteConfirm` (src/unnamed/part_001 lines
210-234) restricted to its effect on the comments state:

```js
const handleDeleteConfirm = async () => {
  if (!deletingCommentId) return;
  try {
    await api.deleteComment(animeId, deletingCommentId);
    ...
    setComments(prev => removeOrMarkComment(prev));
    ...
  } catch (error) { /* destructive toast; comments untouched */ }
  finally { setDeletingCommentId(null); }
};
```

The local soft delete runs only when `api.deleteComment` resolves; when
it rejects, the catch block shows a toast and the forest is unchanged.
-/
def handleDeleteConfirm (outcome : FetchOutcome) (deletingCommentId : Option String)
    (comments : List CNode) : List CNode :=
  match deletingCommentId with
  | none => comments
  | some did =>
    match deleteComment outcome with
    | .ok _ => removeOrMarkComment did comments
    | .error _ => comments

/--
Transient compose state of the `CommentSection` component
(src/unnamed/part_001 lines 130-135): the compose text, the pending
attachment (data URI and preview URL), the pending reply target and the
pending edit target.
-/
structure ComposeState where
  newCommentText : String
  mediaBase64 : Option String
  mediaPreview : Option String
  replyTo : Option CNode
  editingComment : Option CNode

/-- The initial compose state of the component (all useState defaults,
src/unnamed/part_001 lines 130-135). -/
def initialComposeState : ComposeState :=
  { newCommentText := ""
    mediaBase64 := none
    mediaPreview := none
    replyTo := none
    editingComment := none }

/--
Starting an edit in `CommentSection`: the `onEdit` binding sets
`editingComment` (src/unnamed/part_001 line 317) and the effect on
`[editingComment]` (lines 145-153) then loads the text and clears the
reply target and the attachment:

```js
useEffect(() => {
  if (editingComment) {
    setNewCommentText(editingComment.text || '');
    setReplyTo(null);
    setMediaBase64(null);
    setMediaPreview(null);
    ...
  }
}, [editingComment]);
```
-/
def startEdit (c : CNode) (s : ComposeState) : ComposeState :=
  { s with
    editingComment := some c
    newCommentText := (c.text).getD ""
    replyTo := none
    mediaBase64 := none
    mediaPreview := none }

/--
Starting a reply in `CommentSection`: the `onReply` binding is exactly
`setReplyTo` (src/unnamed/part_001 line 317), which sets the reply
target and nothing else — in particular a pending `editingComment` is
NOT cleared.
-/
def startReply (c : CNode) (s : ComposeState) : ComposeState :=
  { s with replyTo := some c }

/-- The `resetForm` handler (src/unnamed/part_001 lines 155-162): clears
the compose text, attachment, reply target and edit target. -/
def resetForm (_s : ComposeState) : ComposeState :=
  { newCommentText := ""
    mediaBase64 := none
    mediaPreview := none
    replyTo := none
    editingComment := none }

/-- Attaching a file (`handleFileChange`, src/unnamed/part_001 lines
236-243): sets the preview and data-URI fields. -/
def attachFile (dataUri previewUrl : String) (s : ComposeState) : ComposeState :=
  { s with mediaBase64 := some dataUri, mediaPreview := some previewUrl }

/-- Typing in the compose box (the `Textarea` onChange binding,
src/unnamed/part_001 line 280). -/
def setText (t : String) (s : ComposeState) : ComposeState :=
  { s with newCommentText := t }

/--
The compose states reachable in the `CommentSection` component by user
events: the initial state, starting an edit, starting a reply, attaching
a file, typing, and resetting (cancel or successful submit).
-/
inductive ReachableCompose : ComposeState → Prop where
  | init : ReachableCompose initialComposeState
  | edit (c : CNode) (s : ComposeState) :
      ReachableCompose s → ReachableCompose (startEdit c s)
  | reply (c : CNode) (s : ComposeState) :
      ReachableCompose s → ReachableCompose (startReply c s)
  | attach (d p : String) (s : ComposeState) :
      ReachableCompose s → ReachableCompose (attachFile d p s)
  | type (t : String) (s : ComposeState) :
      ReachableCompose s → ReachableCompose (setText t s)
  | reset (s : ComposeState) :
      ReachableCompose s → ReachableCompose (resetForm s)

/--
Transient compose state of the staff-chat page (src/unnamed/part_015
lines 52-58): compose text (shared between new and edited messages),
reply target, attachment, edit target.
-/
structure ChatComposeState where
  editedText : String
  mediaBase64 : Option String
  mediaPreview : Option String
  replyTo : Option MNode
  editingMessage : Option MNode

/--
Translation of `handleEditClick` (src/unnamed/part_015 lines 159-163):

```js
const handleEditClick = (message) => {
  setEditingMessage(message);
  setEditedText(message.text || '');
  setReplyTo(null);
}
```

The reply target is cleared but the pending attachment
(`mediaBase64` / `mediaPreview`) is NOT.
-/
def handleEditClick (m : MNode) (s : ChatComposeState) : ChatComposeState :=
  { s with
    editingMessage := some m
    editedText := (m.text).getD ""
    replyTo := none }

/--
Heap-level model of one JavaScript comment object: the same fields as
`CNode`, but `replies` (when defined) is a list of heap addresses of the
child objects, so that object identity and in-place mutation are
observable.  Addresses are indices into a `Heap`.
-/
structure HNode where
  id : String
  author : String
  text : Option String
  timestamp : String
  mediaUrl : Option String
  hasParent : Bool
  replies : Option (List Nat)
  isDeleted : Bool
deriving Repr, DecidableEq, Inhabited

/-- A heap of comment objects; the address of an object is its index.
New objects (JavaScript object spreads) are allocated at the end. -/
abbrev Heap := List HNode

/-- Read the object at address `a` (total, with a default node for
dangling addresses, which never arise on well-formed inputs). -/
def hget (h : Heap) (a : Nat) : HNode :=
  h.getD a default

/-- Heap `h2` extends heap `h1`: every object of `h1` is unchanged at
its address and new objects are only appended.  An operation whose
result heap extends its input heap mutates no existing object. -/
def HeapExtends (h1 h2 : Heap) : Prop :=
  ∃ t, h2 = h1 ++ t

/--
Heap-level translation of `updateInState` (src/unnamed/part_001 lines
171-177), making allocation explicit: each object spread
(`{ ...c, text }` or `{ ...c, replies }`) allocates a fresh object at
the end of the heap; a node that is neither matched nor has a defined
replies array is reused by address.  `fuel` bounds the recursion depth
(object graphs are acyclic in the source, so any fuel larger than the
number of objects is enough; when it runs out the heap is returned
unchanged).  Returns the heap and the address list of the resulting
comment array.
-/
def updateInStateRef (uid newText : String) : Nat → Heap → List Nat → Heap × List Nat
  | 0, h, _ => (h, [])
  | _ + 1, h, [] => (h, [])
  | fuel + 1, h, a :: rest =>
    let c := hget h a
    if c.id == uid then
      let p := updateInStateRef uid newText fuel (h ++ [{ c with text := some newText }]) rest
      (p.1, h.length :: p.2)
    else
      match c.replies with
      | some rs =>
        let p := updateInStateRef uid newText fuel h rs
        let q := updateInStateRef uid newText fuel (p.1 ++ [{ c with replies := some p.2 }]) rest
        (q.1, p.1.length :: q.2)
      | none =>
        let p := updateInStateRef uid newText fuel h rest
        (p.1, a :: p.2)

/--
Heap-level translation of `addReplyToComment` (src/unnamed/part_001
lines 186-197), with the same allocation discipline as
`updateInStateRef`; `reply` is the address of the reply object.
-/
def addReplyToCommentRef (pid : String) (reply : Nat) :
    Nat → Heap → List Nat → Heap × List Nat
  | 0, h, _ => (h, [])
  | _ + 1, h, [] => (h, [])
  | fuel + 1, h, a :: rest =>
    let c := hget h a
    if c.id == pid then
      let p := addReplyToCommentRef pid reply fuel
        (h ++ [{ c with replies := some ((c.replies).getD [] ++ [reply]) }]) rest
      (p.1, h.length :: p.2)
    else
      match c.replies with
      | some rs =>
        let p := addReplyToCommentRef pid reply fuel h rs
        let q := addReplyToCommentRef pid reply fuel (p.1 ++ [{ c with replies := some p.2 }]) rest
        (q.1, p.1.length :: q.2)
      | none =>
        let p := addReplyToCommentRef pid reply fuel h rest
        (p.1, a :: p.2)

/--
Heap-level translation of `removeOrMarkComment` (src/unnamed/part_001
lines 214-226).  The tombstone branch allocates a new object
(`acc.push({ ...c, ... })` is a spread); the unmatched branch with a
defined replies array performs the in-place property assignment
`c.replies = removeOrMarkComment(c.replies)` — modelled by `List.set`
at the SAME address, i.e. a mutation of the existing object, whose
address is then pushed unchanged.
-/
def removeOrMarkCommentRef (tombText : Option String) (did : String) :
    Nat → Heap → List Nat → Heap × List Nat
  | 0, h, _ => (h, [])
  | _ + 1, h, [] => (h, [])
  | fuel + 1, h, a :: rest =>
    let c := hget h a
    if c.id == did then
      match c.replies with
      | some (_ :: _) =>
        let p := removeOrMarkCommentRef tombText did fuel
          (h ++ [{ c with text := tombText, isDeleted := true, mediaUrl := none }]) rest
        (p.1, h.length :: p.2)
      | _ => removeOrMarkCommentRef tombText did fuel h rest
    else
      match c.replies with
      | some rs =>
        let p := removeOrMarkCommentRef tombText did fuel h rs
        let q := removeOrMarkCommentRef tombText did fuel
          (p.1.set a { hget p.1 a with replies := some p.2 }) rest
        (q.1, a :: q.2)
      | none =>
        let p := removeOrMarkCommentRef tombText did fuel h rest
        (p.1, a :: p.2)

/-- A sample reply node (a leaf with a parent back-reference). -/
def sampleReply : CNode := .mk "c2" "bob" (some "hello") "t2" none true none false

/-- A sample top-level node with one reply. -/
def sampleParent : CNode := .mk "c1" "ada" (some "hi") "t1" none false (some [sampleReply]) false

/-- A sample forest: one top-level comment with one reply. -/
def sampleForest : List CNode := [sampleParent]

/-- A sample forest consisting of a single childless top-level comment. -/
def sampleLeafForest : List CNode := [.mk "c1" "ada" (some "hi") "t1" none false none false]

/-- A sample forest whose top-level comment is already tombstoned
(deleted with one reply kept). -/
def sampleDeletedForest : List CNode :=
  [.mk "d1" "ada" (some "") "t1" none false (some [sampleReply]) true]

/-- A fresh node to be inserted in examples. -/
def sampleNew : CNode := .mk "c9" "eve" (some "new") "t9" none false none false

/-- A sample staff-chat message with one reply referencing it. -/
def chatParentMsg : MNode := ⟨"m1", some "hey", none, none, false⟩

/-- A sample staff-chat reply to `chatParentMsg`. -/
def chatReplyMsg : MNode := ⟨"m2", some "yo", none, some "m1", false⟩

/-- A sample staff-chat message list. -/
def chatMessages : List MNode := [chatParentMsg, chatReplyMsg]

/-- Heap object: a top-level comment whose replies array references
address 1. -/
def heapNodeP : HNode := ⟨"p", "ada", some "hi", "t1", none, false, some [1], false⟩

/-- Heap object: a childless reply (undefined replies array). -/
def heapNodeC : HNode := ⟨"c", "bob", some "yo", "t2", none, true, none, false⟩

/-- Heap object: a childless top-level comment (undefined replies
array). -/
def heapNodeT : HNode := ⟨"t", "eve", some "x", "t3", none, false, none, false⟩

/-- A sample heap: object 0 is a top-level comment whose reply is
object 1; the top-level address list is `[0]`. -/
def sampleHeap : Heap := [heapNodeP, heapNodeC]

/-- A sample heap with a second, childless top-level comment at address
2; the top-level address list is `[0, 2]`. -/
def sampleHeapT : Heap := [heapNodeP, heapNodeC, heapNodeT]

@[simp] theorem CNode.id_mk (i au : String) (tx : Option String) (ts : String)
    (mu : Option String) (hp : Bool) (rs : Option (List CNode)) (del : Bool) :
    (CNode.mk i au tx ts mu hp rs del).id = i := rfl

@[simp] theorem CNode.author_mk (i au : String) (tx : Option String) (ts : String)
    (mu : Option String) (hp : Bool) (rs : Option (List CNode)) (del : Bool) :
    (CNode.mk i au tx ts mu hp rs del).author = au := rfl

@[simp] theorem CNode.text_mk (i au : String) (tx : Option String) (ts : String)
    (mu : Option String) (hp : Bool) (rs : Option (List CNode)) (del : Bool) :
    (CNode.mk i au tx ts mu hp rs del).text = tx := rfl

@[simp] theorem CNode.timestamp_mk (i au : String) (tx : Option String) (ts : String)
    (mu : Option String) (hp : Bool) (rs : Option (List CNode)) (del : Bool) :
    (CNode.mk i au tx ts mu hp rs del).timestamp = ts := rfl

@[simp] theorem CNode.mediaUrl_mk (i au : String) (tx : Option String) (ts : String)
    (mu : Option String) (hp : Bool) (rs : Option (List CNode)) (del : Bool) :
    (CNode.mk i au tx ts mu hp rs del).mediaUrl = mu := rfl

@[simp] theorem CNode.hasParent_mk (i au : String) (tx : Option String) (ts : String)
    (mu : Option String) (hp : Bool) (rs : Option (List CNode)) (del : Bool) :
    (CNode.mk i au tx ts mu hp rs del).hasParent = hp := rfl

@[simp] theorem CNode.replies_mk (i au : String) (tx : Option String) (ts : String)
    (mu : Option String) (hp : Bool) (rs : Option (List CNode)) (del : Bool) :
    (CNode.mk i au tx ts mu hp rs del).replies = rs := rfl

@[simp] theorem CNode.isDeleted_mk (i au : String) (tx : Option String) (ts : String)
    (mu : Option String) (hp : Bool) (rs : Option (List CNode)) (del : Bool) :
    (CNode.mk i au tx ts mu hp rs del).isDeleted = del := rfl

/-- Eta rule for comment nodes. -/
theorem CNode.eta (c : CNode) :
    CNode.mk c.id c.author c.text c.timestamp c.mediaUrl c.hasParent c.replies c.isDeleted = c := by
  cases c
  rfl

theorem updateInState_noop (uid t : String) :
    ∀ l : List CNode, countId uid l = 0 → updateInState uid t l = l := by
  intro l
  induction l using updateInState.induct uid t with
  | case1 =>
    intro _
    simp [updateInState]
  | case2 i au tx ts mu hp rs del rest ihr iht =>
    intro h
    by_cases hb : (i == uid) = true
    · cases rs <;> simp [countId, hb] at h
    · have hb2 : (i == uid) = false := by simpa using hb
      cases rs with
      | none =>
        simp [countId, hb2] at h
        simp [updateInState, hb2, iht h]
      | some rl =>
        simp [countId, hb2] at h
        simp [updateInState, hb2, ihr h.1, iht h.2]

theorem addReplyToComment_noop (pid : String) (reply : CNode) :
    ∀ l : List CNode, countId pid l = 0 → addReplyToComment pid reply l = l := by
  intro l
  induction l using addReplyToComment.induct pid reply with
  | case1 =>
    intro _
    simp [addReplyToComment]
  | case2 i au tx ts mu hp rs del rest ihr iht =>
    intro h
    by_cases hb : (i == pid) = true
    · cases rs <;> simp [countId, hb] at h
    · have hb2 : (i == pid) = false := by simpa using hb
      cases rs with
      | none =>
        simp [countId, hb2] at h
        simp [addReplyToComment, hb2, iht h]
      | some rl =>
        simp [countId, hb2] at h
        simp [addReplyToComment, hb2, ihr h.1, iht h.2]

theorem removeOrMarkWith_noop (tombText : Option String) (did : String) :
    ∀ l : List CNode, countId did l = 0 → removeOrMarkWith tombText did l = l := by
  intro l
  induction l using removeOrMarkWith.induct tombText did with
  | case1 =>
    intro _
    simp [removeOrMarkWith]
  | case2 i au tx ts mu hp rs del rest hb iht =>
    intro h
    cases rs <;> simp [countId, hb] at h
  | case3 i au tx ts mu hp rs del rest hb ihr iht =>
    intro h
    have hb2 : (i == did) = false := by simpa using hb
    cases rs with
    | none =>
      simp [countId, hb2] at h
      simp [removeOrMarkWith, hb2, iht h]
    | some rl =>
      simp [countId, hb2] at h
      cases rl with
      | nil =>
        simp [removeOrMarkWith, hb2, iht h.2]
      | cons r rl2 =>
        simp [removeOrMarkWith, hb2, ihr h.1, iht h.2]

theorem count_pos_of_get (uid : String) :
    ∀ (F : List CNode) (i : Nat) (c : CNode), F[i]? = some c → c.id = uid →
      1 ≤ countId uid F := by
  intro F
  induction F with
  | nil =>
    intro i c hi _
    simp at hi
  | cons d rest ih =>
    intro i c hi hc
    cases i with
    | zero =>
      simp at hi
      subst hi
      cases d with
      | mk i1 au tx ts mu hp rs del =>
        simp at hc
        cases rs <;> simp [countId, hc] <;> omega
    | succ n =>
      simp at hi
      have h1 := ih n c hi hc
      cases d with
      | mk i1 au tx ts mu hp rs del =>
        cases rs <;> simp [countId] <;> omega

theorem count_replies_le (uid : String) :
    ∀ (F : List CNode) (j : Nat) (d : CNode) (rs : List CNode),
      F[j]? = some d → d.replies = some rs → countId uid rs ≤ countId uid F := by
  intro F
  induction F with
  | nil =>
    intro j d rs hj _
    simp at hj
  | cons e rest ih =>
    intro j d rs hj hr
    cases j with
    | zero =>
      simp at hj
      subst hj
      cases e with
      | mk i1 au tx ts mu hp rs1 del =>
        simp at hr
        subst hr
        simp [countId]
        omega
    | succ n =>
      simp at hj
      have h1 := ih n d rs hj hr
      cases e with
      | mk i1 au tx ts mu hp rs1 del =>
        cases rs1 <;> simp [countId] <;> omega

theorem count_pos_of_present (uid : String) :
    ∀ (q : List Nat) (F L : List CNode) (i : Nat) (c : CNode),
      subForestAt q F = some L → L[i]? = some c → c.id = uid →
      1 ≤ countId uid F := by
  intro q
  induction q with
  | nil =>
    intro F L i c hq hi hc
    simp [subForestAt] at hq
    subst hq
    exact count_pos_of_get uid F i c hi hc
  | cons j q ih =>
    intro F L i c hq hi hc
    cases hj : F[j]? with
    | none => simp [subForestAt, hj] at hq
    | some d =>
      cases hr : d.replies with
      | none => simp [subForestAt, hj, hr] at hq
      | some rs =>
        simp [subForestAt, hj, hr] at hq
        have h1 := ih rs L i c hq hi hc
        have h2 := count_replies_le uid F j d rs hj hr
        omega

theorem subForestAt_cons_succ (n : Nat) (q : List Nat) (d : CNode) (rest : List CNode) :
    subForestAt ((n + 1) :: q) (d :: rest) = subForestAt (n :: q) rest := by
  simp [subForestAt]

theorem op_at_top (uid : String) (op : List CNode → List CNode) (res : CNode → List CNode)
    (hnoop : ∀ l, countId uid l = 0 → op l = l)
    (hmatch : ∀ c rest, c.id = uid → op (c :: rest) = res c ++ op rest)
    (hnomatch : ∀ i au tx ts mu hp rs del rest, ¬(i = uid) →
      op (CNode.mk i au tx ts mu hp rs del :: rest)
        = CNode.mk i au tx ts mu hp (rs.map op) del :: op rest) :
    ∀ (F : List CNode) (i : Nat) (c : CNode), F[i]? = some c → c.id = uid →
      countId uid F = 1 → op F = replaceIdx res i F := by
  intro F
  induction F with
  | nil =>
    intro i c hi _ _
    simp at hi
  | cons d rest ih =>
    intro i c hi hc hcount
    cases i with
    | zero =>
      simp at hi
      subst hi
      cases d with
      | mk i1 au tx ts mu hp rs del =>
        simp at hc
        cases rs with
        | none =>
          simp [countId, hc] at hcount
          rw [hmatch (CNode.mk i1 au tx ts mu hp none del) rest (by simp [hc])]
          rw [hnoop rest hcount]
          simp [replaceIdx]
        | some rl =>
          simp [countId, hc] at hcount
          have h2 : countId uid rest = 0 := by omega
          rw [hmatch (CNode.mk i1 au tx ts mu hp (some rl) del) rest (by simp [hc])]
          rw [hnoop rest h2]
          simp [replaceIdx]
    | succ n =>
      simp at hi
      have hpos := count_pos_of_get uid rest n c hi hc
      cases d with
      | mk i1 au tx ts mu hp rs del =>
        by_cases hb : i1 = uid
        · cases rs <;> simp [countId, hb] at hcount <;> omega
        · cases rs with
          | none =>
            simp [countId, hb] at hcount
            rw [hnomatch i1 au tx ts mu hp none del rest hb]
            rw [ih n c hi hc hcount]
            simp [replaceIdx]
          | some rl =>
            simp [countId, hb] at hcount
            have h1 : countId uid rl = 0 := by omega
            have h2 : countId uid rest = 1 := by omega
            rw [hnomatch i1 au tx ts mu hp (some rl) del rest hb]
            rw [ih n c hi hc h2]
            simp [replaceIdx, hnoop rl h1]

theorem op_at_path (uid : String) (op : List CNode → List CNode) (res : CNode → List CNode)
    (hnoop : ∀ l, countId uid l = 0 → op l = l)
    (hmatch : ∀ c rest, c.id = uid → op (c :: rest) = res c ++ op rest)
    (hnomatch : ∀ i au tx ts mu hp rs del rest, ¬(i = uid) →
      op (CNode.mk i au tx ts mu hp rs del :: rest)
        = CNode.mk i au tx ts mu hp (rs.map op) del :: op rest) :
    ∀ (q : List Nat) (F L : List CNode) (i : Nat) (c : CNode),
      subForestAt q F = some L → L[i]? = some c → c.id = uid → countId uid F = 1 →
      op F = applyAt q i res F := by
  intro q
  induction q with
  | nil =>
    intro F L i c hq hi hc hcount
    simp [subForestAt] at hq
    subst hq
    exact op_at_top uid op res hnoop hmatch hnomatch F i c hi hc hcount
  | cons j q ihq =>
    intro F
    induction F generalizing j with
    | nil =>
      intro L i c hq
      simp [subForestAt] at hq
    | cons d rest ihF =>
      intro L i c hq hi hc hcount
      cases j with
      | zero =>
        cases d with
        | mk i1 au tx ts mu hp rs del =>
          cases rs with
          | none => simp [subForestAt] at hq
          | some rl =>
            simp [subForestAt] at hq
            have hpos := count_pos_of_present uid q rl L i c hq hi hc
            by_cases hb : i1 = uid
            · simp [countId, hb] at hcount
              omega
            · simp [countId, hb] at hcount
              have h1 : countId uid rl = 1 := by omega
              have h2 : countId uid rest = 0 := by omega
              rw [hnomatch i1 au tx ts mu hp (some rl) del rest hb]
              simp only [Option.map_some']
              rw [ihq rl L i c hq hi hc h1]
              rw [hnoop rest h2]
              simp [applyAt, modifyIdx, descendReplies]
      | succ n =>
        rw [subForestAt_cons_succ] at hq
        have hpos := count_pos_of_present uid (n :: q) rest L i c hq hi hc
        cases d with
        | mk i1 au tx ts mu hp rs del =>
          by_cases hb : i1 = uid
          · cases rs <;> simp [countId, hb] at hcount <;> omega
          · cases rs with
            | none =>
              simp [countId, hb] at hcount
              rw [hnomatch i1 au tx ts mu hp none del rest hb]
              rw [ihF n L i c hq hi hc hcount]
              simp [applyAt, modifyIdx, descendReplies]
            | some rl =>
              simp [countId, hb] at hcount
              have h1 : countId uid rl = 0 := by omega
              have h2 : countId uid rest = 1 := by omega
              rw [hnomatch i1 au tx ts mu hp (some rl) del rest hb]
              rw [ihF n L i c hq hi hc h2]
              simp [applyAt, modifyIdx, descendReplies, hnoop rl h1]

theorem updateInState_match (uid t : String) (c : CNode) (rest : List CNode)
    (hc : c.id = uid) :
    updateInState uid t (c :: rest) = [c.setText t] ++ updateInState uid t rest := by
  cases c with
  | mk i au tx ts mu hp rs del =>
    simp at hc
    cases rs <;> simp [updateInState, CNode.setText, hc]

theorem updateInState_nomatch (uid t : String) (i au : String) (tx : Option String)
    (ts : String) (mu : Option String) (hp : Bool) (rs : Option (List CNode)) (del : Bool)
    (rest : List CNode) (hb : ¬ i = uid) :
    updateInState uid t (.mk i au tx ts mu hp rs del :: rest)
      = .mk i au tx ts mu hp (rs.map (updateInState uid t)) del
          :: updateInState uid t rest := by
  cases rs <;> simp [updateInState, hb]

theorem addReplyToComment_match (pid : String) (node : CNode) (c : CNode)
    (rest : List CNode) (hc : c.id = pid) :
    addReplyToComment pid node (c :: rest)
      = [c.appendReply node] ++ addReplyToComment pid node rest := by
  cases c with
  | mk i au tx ts mu hp rs del =>
    simp at hc
    cases rs <;> simp [addReplyToComment, CNode.appendReply, hc]

theorem addReplyToComment_nomatch (pid : String) (node : CNode) (i au : String)
    (tx : Option String) (ts : String) (mu : Option String) (hp : Bool)
    (rs : Option (List CNode)) (del : Bool) (rest : List CNode) (hb : ¬ i = pid) :
    addReplyToComment pid node (.mk i au tx ts mu hp rs del :: rest)
      = .mk i au tx ts mu hp (rs.map (addReplyToComment pid node)) del
          :: addReplyToComment pid node rest := by
  cases rs <;> simp [addReplyToComment, hb]

theorem removeOrMarkWith_match (tombText : Option String) (did : String) (c : CNode)
    (rest : List CNode) (hc : c.id = did) :
    removeOrMarkWith tombText did (c :: rest)
      = softDeleteRes tombText c ++ removeOrMarkWith tombText did rest := by
  cases c with
  | mk i au tx ts mu hp rs del =>
    simp at hc
    match rs with
    | none => simp [removeOrMarkWith, softDeleteRes, hc]
    | some [] => simp [removeOrMarkWith, softDeleteRes, hc]
    | some (r :: rl) =>
      simp [removeOrMarkWith, softDeleteRes, CNode.tombstoneWith, hc]

theorem removeOrMarkWith_nomatch (tombText : Option String) (did : String) (i au : String)
    (tx : Option String) (ts : String) (mu : Option String) (hp : Bool)
    (rs : Option (List CNode)) (del : Bool) (rest : List CNode) (hb : ¬ i = did) :
    removeOrMarkWith tombText did (.mk i au tx ts mu hp rs del :: rest)
      = .mk i au tx ts mu hp (rs.map (removeOrMarkWith tombText did)) del
          :: removeOrMarkWith tombText did rest := by
  match rs with
  | none => simp [removeOrMarkWith, hb]
  | some [] => simp [removeOrMarkWith, hb]
  | some (r :: rl) => simp [removeOrMarkWith, hb]

/-- The full frame characterization of `updateInState`: when the target
id occurs exactly once, at path `(q, i)`, the operation replaces exactly
that node by its text-updated copy, and the rest of the forest is
unchanged. -/
theorem updateInState_at (uid t : String) (q : List Nat) (F L : List CNode) (i : Nat)
    (c : CNode) (hq : subForestAt q F = some L) (hi : L[i]? = some c) (hc : c.id = uid)
    (hcount : countId uid F = 1) :
    updateInState uid t F = applyAt q i (fun d => [d.setText t]) F :=
  op_at_path uid (updateInState uid t) (fun d => [d.setText t])
    (updateInState_noop uid t)
    (fun c rest hc => updateInState_match uid t c rest hc)
    (fun i au tx ts mu hp rs del rest hb =>
      updateInState_nomatch uid t i au tx ts mu hp rs del rest hb)
    q F L i c hq hi hc hcount

/-- The full frame characterization of `addReplyToComment`: when the
parent id occurs exactly once, at path `(q, i)`, the operation replaces
exactly that node by its copy with the reply appended, and the rest of
the forest is unchanged. -/
theorem addReplyToComment_at (pid : String) (node : CNode) (q : List Nat)
    (F L : List CNode) (i : Nat) (c : CNode) (hq : subForestAt q F = some L)
    (hi : L[i]? = some c) (hc : c.id = pid) (hcount : countId pid F = 1) :
    addReplyToComment pid node F = applyAt q i (fun d => [d.appendReply node]) F :=
  op_at_path pid (addReplyToComment pid node) (fun d => [d.appendReply node])
    (addReplyToComment_noop pid node)
    (fun c rest hc => addReplyToComment_match pid node c rest hc)
    (fun i au tx ts mu hp rs del rest hb =>
      addReplyToComment_nomatch pid node i au tx ts mu hp rs del rest hb)
    q F L i c hq hi hc hcount

/-- The full frame characterization of `removeOrMarkWith`: when the
target id occurs exactly once, at path `(q, i)`, the operation either
tombstones exactly that node (nonempty replies) or removes it (undefined
or empty replies), and the rest of the forest is unchanged. -/
theorem removeOrMarkWith_at (tombText : Option String) (did : String) (q : List Nat)
    (F L : List CNode) (i : Nat) (c : CNode) (hq : subForestAt q F = some L)
    (hi : L[i]? = some c) (hc : c.id = did) (hcount : countId did F = 1) :
    removeOrMarkWith tombText did F = applyAt q i (softDeleteRes tombText) F :=
  op_at_path did (removeOrMarkWith tombText did) (softDeleteRes tombText)
    (removeOrMarkWith_noop tombText did)
    (fun c rest hc => removeOrMarkWith_match tombText did c rest hc)
    (fun i au tx ts mu hp rs del rest hb =>
      removeOrMarkWith_nomatch tombText did i au tx ts mu hp rs del rest hb)
    q F L i c hq hi hc hcount

theorem replaceIdx_single (res : CNode → List CNode) :
    ∀ (L : List CNode) (i : Nat) (c x : CNode), L[i]? = some c → res c = [x] →
      replaceIdx res i L = L.set i x := by
  intro L
  induction L with
  | nil =>
    intro i c x hi
    simp at hi
  | cons d rest ih =>
    intro i c x hi hres
    cases i with
    | zero =>
      simp at hi
      subst hi
      simp [replaceIdx, hres]
    | succ n =>
      simp at hi
      simp [replaceIdx, ih n c x hi hres]

theorem replaceIdx_drop (res : CNode → List CNode) :
    ∀ (L : List CNode) (i : Nat) (c : CNode), L[i]? = some c → res c = [] →
      replaceIdx res i L = L.eraseIdx i := by
  intro L
  induction L with
  | nil =>
    intro i c hi
    simp at hi
  | cons d rest ih =>
    intro i c hi hres
    cases i with
    | zero =>
      simp at hi
      subst hi
      simp [replaceIdx, hres, List.eraseIdx]
    | succ n =>
      simp at hi
      simp [replaceIdx, List.eraseIdx, ih n c hi hres]

theorem subForestAt_applyAt (res : CNode → List CNode) :
    ∀ (q : List Nat) (F L : List CNode) (i : Nat), subForestAt q F = some L →
      subForestAt q (applyAt q i res F) = some (replaceIdx res i L) := by
  intro q
  induction q with
  | nil =>
    intro F L i hq
    simp [subForestAt] at hq
    subst hq
    simp [subForestAt, applyAt]
  | cons j q ih =>
    intro F
    induction F generalizing j with
    | nil =>
      intro L i hq
      simp [subForestAt] at hq
    | cons d rest ihF =>
      intro L i hq
      cases j with
      | zero =>
        cases d with
        | mk i1 au tx ts mu hp rs del =>
          cases rs with
          | none => simp [subForestAt] at hq
          | some rl =>
            simp [subForestAt] at hq
            simp [applyAt, modifyIdx, descendReplies, subForestAt]
            exact ih rl L i hq
      | succ n =>
        rw [subForestAt_cons_succ] at hq
        show subForestAt ((n + 1) :: q) (d :: modifyIdx (descendReplies (applyAt q i res)) n rest)
          = some (replaceIdx res i L)
        rw [subForestAt_cons_succ]
        exact ihF n L i hq

theorem removeOrMarkWith_idem (tombText : Option String) (did : String) :
    ∀ l : List CNode, removeOrMarkWith tombText did (removeOrMarkWith tombText did l)
      = removeOrMarkWith tombText did l := by
  intro l
  induction l using removeOrMarkWith.induct tombText did with
  | case1 => simp [removeOrMarkWith]
  | case2 i au tx ts mu hp rs del rest hb iht =>
    cases rs with
    | none => simp [removeOrMarkWith, hb, iht]
    | some rl =>
      cases rl with
      | nil => simp [removeOrMarkWith, hb, iht]
      | cons r rl2 => simp [removeOrMarkWith, hb, iht]
  | case3 i au tx ts mu hp rs del rest hb ihr iht =>
    have hb2 : (i == did) = false := by simpa using hb
    cases rs with
    | none => simp [removeOrMarkWith, hb2, iht]
    | some rl =>
      cases rl with
      | nil => simp [removeOrMarkWith, hb2, iht]
      | cons r rl2 =>
        simp only [removeOrMarkWith, hb2, Bool.false_eq_true, if_false]
        rw [removeOrMarkWith_nomatch tombText did i au tx ts mu hp
          (some (removeOrMarkWith tombText did (r :: rl2))) del
          (removeOrMarkWith tombText did rest) (by simpa using hb)]
        simp at ihr
        simp [ihr, iht]

theorem heapExtends_refl (h : Heap) : HeapExtends h h :=
  ⟨[], by simp⟩

theorem heapExtends_append (h : Heap) (t : List HNode) : HeapExtends h (h ++ t) :=
  ⟨t, rfl⟩

theorem heapExtends_trans {h1 h2 h3 : Heap} :
    HeapExtends h1 h2 → HeapExtends h2 h3 → HeapExtends h1 h3 := by
  rintro ⟨t, rfl⟩ ⟨u, rfl⟩
  exact ⟨t ++ u, by simp⟩

/-- The heap-level `updateInState` never modifies an existing object: it
only allocates, so the input heap is an initial segment of the output
heap. -/
theorem updateInStateRef_extends (uid t : String) :
    ∀ (fuel : Nat) (h : Heap) (l : List Nat),
      HeapExtends h (updateInStateRef uid t fuel h l).1 := by
  intro fuel
  induction fuel with
  | zero =>
    intro h l
    exact heapExtends_refl h
  | succ n ih =>
    intro h l
    cases l with
    | nil => exact heapExtends_refl h
    | cons a rest =>
      by_cases hb : ((hget h a).id == uid) = true
      · simp only [updateInStateRef, hb, if_true]
        exact heapExtends_trans (heapExtends_append h _) (ih _ rest)
      · have hb2 : ((hget h a).id == uid) = false := by simpa using hb
        cases hr : (hget h a).replies with
        | some rs =>
          simp only [updateInStateRef, hb2, Bool.false_eq_true, if_false, hr]
          exact heapExtends_trans (ih h rs)
            (heapExtends_trans (heapExtends_append _ _) (ih _ rest))
        | none =>
          simp only [updateInStateRef, hb2, Bool.false_eq_true, if_false, hr]
          exact ih h rest

/-- The heap-level `addReplyToComment` never modifies an existing
object: it only allocates, so the input heap is an initial segment of
the output heap. -/
theorem addReplyToCommentRef_extends (pid : String) (reply : Nat) :
    ∀ (fuel : Nat) (h : Heap) (l : List Nat),
      HeapExtends h (addReplyToCommentRef pid reply fuel h l).1 := by
  intro fuel
  induction fuel with
  | zero =>
    intro h l
    exact heapExtends_refl h
  | succ n ih =>
    intro h l
    cases l with
    | nil => exact heapExtends_refl h
    | cons a rest =>
      by_cases hb : ((hget h a).id == pid) = true
      · simp only [addReplyToCommentRef, hb, if_true]
        exact heapExtends_trans (heapExtends_append h _) (ih _ rest)
      · have hb2 : ((hget h a).id == pid) = false := by simpa using hb
        cases hr : (hget h a).replies with
        | some rs =>
          simp only [addReplyToCommentRef, hb2, Bool.false_eq_true, if_false, hr]
          exact heapExtends_trans (ih h rs)
            (heapExtends_trans (heapExtends_append _ _) (ih _ rest))
        | none =>
          simp only [addReplyToCommentRef, hb2, Bool.false_eq_true, if_false, hr]
          exact ih h rest

/-- C5: for every forest and every id of a node present in it (occurring
once, at path `(q, i)`), `editText` (source: `updateInState`) replaces
only that node's text: the whole forest equals the original with exactly
the addressed node replaced by its text-updated copy, and that copy
agrees with the original node on every field other than `text`. -/
theorem editText_changes_only_target (uid t : String) (q : List Nat) (F L : List CNode)
    (i : Nat) (c : CNode) (hq : subForestAt q F = some L) (hi : L[i]? = some c)
    (hc : c.id = uid) (hcount : countId uid F = 1) :
    updateInState uid t F = applyAt q i (fun d => [d.setText t]) F ∧
    subForestAt q (updateInState uid t F) = some (L.set i (c.setText t)) ∧
    (c.setText t).text = some t ∧ (c.setText t).id = c.id ∧
    (c.setText t).author = c.author ∧ (c.setText t).timestamp = c.timestamp ∧
    (c.setText t).mediaUrl = c.mediaUrl ∧ (c.setText t).hasParent = c.hasParent ∧
    (c.setText t).replies = c.replies ∧ (c.setText t).isDeleted = c.isDeleted := by
  have hmain := updateInState_at uid t q F L i c hq hi hc hcount
  have hsub : subForestAt q (updateInState uid t F) = some (L.set i (c.setText t)) := by
    rw [hmain, subForestAt_applyAt _ q F L i hq,
      replaceIdx_single _ L i c (c.setText t) hi rfl]
  refine ⟨hmain, hsub, ?_⟩
  cases c with
  | mk i1 au tx ts mu hp rs del => simp [CNode.setText]

theorem editText_changes_only_target_witness :
    subForestAt [0] sampleForest = some [sampleReply] ∧
    [sampleReply][0]? = some sampleReply ∧ sampleReply.id = "c2" ∧
    countId "c2" sampleForest = 1 ∧
    updateInState "c2" "yo" sampleForest
      = applyAt [0] 0 (fun d => [d.setText "yo"]) sampleForest :=
  ⟨by simp [subForestAt, sampleForest, sampleParent], by simp, by simp [sampleReply],
   by simp [countId, sampleForest, sampleParent, sampleReply],
   (editText_changes_only_target "c2" "yo" [0] sampleForest [sampleReply] 0 sampleReply
     (by simp [subForestAt, sampleForest, sampleParent]) (by simp) (by simp [sampleReply])
     (by simp [countId, sampleForest, sampleParent, sampleReply])).1⟩

/-- C10: `editText` does not guard on the tombstone flag: on a deleted
node (isDeleted = true) present once at `(q, i)`, it still replaces the
text with the new value while the node remains deleted. -/
theorem editText_overwrites_tombstone (uid t : String) (q : List Nat) (F L : List CNode)
    (i : Nat) (c : CNode) (hq : subForestAt q F = some L) (hi : L[i]? = some c)
    (hc : c.id = uid) (hcount : countId uid F = 1) (hdel : c.isDeleted = true) :
    updateInState uid t F = applyAt q i (fun d => [d.setText t]) F ∧
    subForestAt q (updateInState uid t F) = some (L.set i (c.setText t)) ∧
    (c.setText t).text = some t ∧ (c.setText t).isDeleted = true := by
  have hmain := updateInState_at uid t q F L i c hq hi hc hcount
  have hsub : subForestAt q (updateInState uid t F) = some (L.set i (c.setText t)) := by
    rw [hmain, subForestAt_applyAt _ q F L i hq,
      replaceIdx_single _ L i c (c.setText t) hi rfl]
  refine ⟨hmain, hsub, ?_, ?_⟩
  · cases c with
    | mk i1 au tx ts mu hp rs del => simp [CNode.setText]
  · cases c with
    | mk i1 au tx ts mu hp rs del =>
      simp at hdel
      simp [CNode.setText, hdel]

theorem editText_overwrites_tombstone_witness :
    subForestAt [] sampleDeletedForest = some sampleDeletedForest ∧
    sampleDeletedForest[0]? = some (.mk "d1" "ada" (some "") "t1" none false (some [sampleReply]) true) ∧
    (CNode.mk "d1" "ada" (some "") "t1" none false (some [sampleReply]) true).id = "d1" ∧
    countId "d1" sampleDeletedForest = 1 ∧
    (CNode.mk "d1" "ada" (some "") "t1" none false (some [sampleReply]) true).isDeleted = true ∧
    updateInState "d1" "sneaky" sampleDeletedForest
      = applyAt [] 0 (fun d => [d.setText "sneaky"]) sampleDeletedForest :=
  ⟨by simp [subForestAt], by simp [sampleDeletedForest], by simp,
   by simp [countId, sampleDeletedForest, sampleReply], by simp,
   (editText_overwrites_tombstone "d1" "sneaky" [] sampleDeletedForest sampleDeletedForest 0
     (.mk "d1" "ada" (some "") "t1" none false (some [sampleReply]) true)
     (by simp [subForestAt]) (by simp [sampleDeletedForest]) (by simp)
     (by simp [countId, sampleDeletedForest, sampleReply]) (by simp)).1⟩

/-- C6: on a forest in which the id does not occur at all, `editText`,
`softDelete` (both tombstone variants, via the parameter) and
`insertReply` with that id as parent all return the forest unchanged
(the silent no-op of the source functions). -/
theorem unknown_id_is_noop (uid t : String) (node : CNode) (tombText : Option String)
    (F : List CNode) (h : countId uid F = 0) :
    updateInState uid t F = F ∧ removeOrMarkWith tombText uid F = F ∧
    insertReply (some uid) node F = F :=
  ⟨updateInState_noop uid t F h, removeOrMarkWith_noop tombText uid F h,
   addReplyToComment_noop uid node F h⟩

theorem unknown_id_is_noop_witness :
    countId "zz" sampleForest = 0 ∧
    (updateInState "zz" "boo" sampleForest = sampleForest ∧
     removeOrMarkWith (some "") "zz" sampleForest = sampleForest ∧
     insertReply (some "zz") sampleNew sampleForest = sampleForest) :=
  ⟨by simp [countId, sampleForest, sampleParent, sampleReply],
   unknown_id_is_noop "zz" "boo" sampleNew (some "") sampleForest
     (by simp [countId, sampleForest, sampleParent, sampleReply])⟩

/-- C7: `softDelete` (source: `removeOrMarkComment`, both tombstone-text
variants via the parameter) is idempotent on every forest and every id:
the second application is a no-op, whether the first pass tombstoned the
node (the tombstone keeps its id and nonempty replies and is re-tombstoned
identically) or removed it (the id is then absent). -/
theorem softDelete_idempotent (tombText : Option String) (did : String) (F : List CNode) :
    removeOrMarkWith tombText did (removeOrMarkWith tombText did F)
      = removeOrMarkWith tombText did F ∧
    removeOrMarkComment did (removeOrMarkComment did F) = removeOrMarkComment did F ∧
    removeOrMarkCommentEpisode did (removeOrMarkCommentEpisode did F)
      = removeOrMarkCommentEpisode did F :=
  ⟨removeOrMarkWith_idem tombText did F, removeOrMarkWith_idem (some "") did F,
   removeOrMarkWith_idem (some "[deleted]") did F⟩

/-- C4: `insertReply` with an absent parent id prepends the new node to
the top-level list (so it is the head of `topLevelComments` of the
result, the new node being a top-level node without parent reference);
with a parent id present once at `(q, i)` it replaces exactly that
parent by its copy whose replies array has the new node appended as the
last element. -/
theorem insertReply_prepend_or_append (node : CNode) (F : List CNode) :
    (node.hasParent = false →
      insertReply none node F = node :: F ∧
      (topLevelComments (insertReply none node F))[0]? = some node) ∧
    (∀ (pid : String) (q : List Nat) (L : List CNode) (i : Nat) (c : CNode),
      subForestAt q F = some L → L[i]? = some c → c.id = pid → countId pid F = 1 →
      insertReply (some pid) node F = applyAt q i (fun d => [d.appendReply node]) F ∧
      subForestAt q (insertReply (some pid) node F) = some (L.set i (c.appendReply node)) ∧
      (c.appendReply node).replies = some ((c.replies).getD [] ++ [node])) := by
  constructor
  · intro hp
    refine ⟨rfl, ?_⟩
    simp [insertReply, topLevelComments, hp]
  · intro pid q L i c hq hi hc hcount
    have hmain := addReplyToComment_at pid node q F L i c hq hi hc hcount
    have hsub : subForestAt q (addReplyToComment pid node F)
        = some (L.set i (c.appendReply node)) := by
      rw [hmain, subForestAt_applyAt _ q F L i hq,
        replaceIdx_single _ L i c (c.appendReply node) hi rfl]
    refine ⟨hmain, hsub, ?_⟩
    cases c with
    | mk i1 au tx ts mu hp rs del => simp [CNode.appendReply]

theorem insertReply_prepend_or_append_witness :
    sampleNew.hasParent = false ∧
    (insertReply none sampleNew sampleForest = sampleNew :: sampleForest ∧
     (topLevelComments (insertReply none sampleNew sampleForest))[0]? = some sampleNew) ∧
    subForestAt [] sampleForest = some sampleForest ∧
    sampleForest[0]? = some sampleParent ∧ sampleParent.id = "c1" ∧
    countId "c1" sampleForest = 1 ∧
    insertReply (some "c1") sampleNew sampleForest
      = applyAt [] 0 (fun d => [d.appendReply sampleNew]) sampleForest :=
  ⟨by simp [sampleNew],
   (insertReply_prepend_or_append sampleNew sampleForest).1 (by simp [sampleNew]),
   by simp [subForestAt], by simp [sampleForest], by simp [sampleParent],
   by simp [countId, sampleForest, sampleParent, sampleReply],
   ((insertReply_prepend_or_append sampleNew sampleForest).2 "c1" [] sampleForest 0
     sampleParent (by simp [subForestAt]) (by simp [sampleForest]) (by simp [sampleParent])
     (by simp [countId, sampleForest, sampleParent, sampleReply])).1⟩

/-- C1 (amended): `softDelete` on a node present once at `(q, i)` with a
nonempty replies array replaces exactly that node by a tombstone having
isDeleted = true, text equal to the feature's placeholder (the empty
string in the anime comment section, "[deleted]" in the episode comment
section — not undefined), mediaUrl undefined, and its children preserved
unchanged, keeping the containing list's length; on a node with zero
children (undefined or empty replies array) it removes the node from its
containing list, whose length decreases by exactly one.  The staff chat
behaves likewise on its flat message list, with placeholder
"[deleted]". -/
theorem softDelete_tombstone_or_remove (tombText : Option String) (did : String)
    (q : List Nat) (F L : List CNode) (i : Nat) (c : CNode)
    (hq : subForestAt q F = some L) (hi : L[i]? = some c) (hc : c.id = did)
    (hcount : countId did F = 1) :
    (∀ r rl, c.replies = some (r :: rl) →
      removeOrMarkWith tombText did F = applyAt q i (softDeleteRes tombText) F ∧
      subForestAt q (removeOrMarkWith tombText did F)
        = some (L.set i (c.tombstoneWith tombText)) ∧
      (L.set i (c.tombstoneWith tombText)).length = L.length ∧
      (c.tombstoneWith tombText).isDeleted = true ∧
      (c.tombstoneWith tombText).text = tombText ∧
      (c.tombstoneWith tombText).mediaUrl = none ∧
      (c.tombstoneWith tombText).replies = c.replies ∧
      (c.tombstoneWith tombText).id = c.id) ∧
    ((c.replies = none ∨ c.replies = some []) →
      removeOrMarkWith tombText did F = applyAt q i (softDeleteRes tombText) F ∧
      subForestAt q (removeOrMarkWith tombText did F) = some (L.eraseIdx i) ∧
      (L.eraseIdx i).length + 1 = L.length) ∧
    handleDeleteMessage "m1" chatMessages
      = [{ chatParentMsg with isDeleted := true, text := some "[deleted]", mediaUrl := none },
         chatReplyMsg] ∧
    handleDeleteMessage "m2" chatMessages = [chatParentMsg] := by
  have hmain := removeOrMarkWith_at tombText did q F L i c hq hi hc hcount
  refine ⟨?_, ?_, by decide, by decide⟩
  · intro r rl hr
    have hres : softDeleteRes tombText c = [c.tombstoneWith tombText] := by
      cases c with
      | mk i1 au tx ts mu hp rs del =>
        simp at hr
        subst hr
        simp [softDeleteRes, CNode.tombstoneWith]
    refine ⟨hmain, ?_, by simp, ?_⟩
    · rw [hmain, subForestAt_applyAt _ q F L i hq,
        replaceIdx_single _ L i c (c.tombstoneWith tombText) hi hres]
    · cases c with
      | mk i1 au tx ts mu hp rs del => simp [CNode.tombstoneWith]
  · intro hr
    have hres : softDeleteRes tombText c = [] := by
      cases c with
      | mk i1 au tx ts mu hp rs del =>
        rcases hr with h | h <;> simp at h <;> subst h <;> simp [softDeleteRes]
    have hlt : i < L.length := (List.getElem?_eq_some.mp hi).1
    refine ⟨hmain, ?_, ?_⟩
    · rw [hmain, subForestAt_applyAt _ q F L i hq, replaceIdx_drop _ L i c hi hres]
    · simp [List.length_eraseIdx, hlt]
      omega

theorem softDelete_tombstone_or_remove_witness :
    subForestAt [] sampleForest = some sampleForest ∧
    sampleForest[0]? = some sampleParent ∧ sampleParent.id = "c1" ∧
    countId "c1" sampleForest = 1 ∧ sampleParent.replies = some [sampleReply] ∧
    (removeOrMarkWith (some "") "c1" sampleForest
      = applyAt [] 0 (softDeleteRes (some "")) sampleForest ∧
     subForestAt [] (removeOrMarkWith (some "") "c1" sampleForest)
      = some (sampleForest.set 0 (sampleParent.tombstoneWith (some "")))) ∧
    subForestAt [0] sampleForest = some [sampleReply] ∧
    [sampleReply][0]? = some sampleReply ∧ sampleReply.id = "c2" ∧
    countId "c2" sampleForest = 1 ∧ sampleReply.replies = none ∧
    (removeOrMarkWith (some "") "c2" sampleForest
      = applyAt [0] 0 (softDeleteRes (some "")) sampleForest ∧
     subForestAt [0] (removeOrMarkWith (some "") "c2" sampleForest)
      = some (([sampleReply] : List CNode).eraseIdx 0)) := by
  refine ⟨by simp [subForestAt], by simp [sampleForest], by simp [sampleParent],
    by simp [countId, sampleForest, sampleParent, sampleReply], by simp [sampleParent],
    ?_, by simp [subForestAt, sampleForest, sampleParent], by simp, by simp [sampleReply],
    by simp [countId, sampleForest, sampleParent, sampleReply], by simp [sampleReply], ?_⟩
  · have h := (softDelete_tombstone_or_remove (some "") "c1" [] sampleForest sampleForest 0
      sampleParent (by simp [subForestAt]) (by simp [sampleForest]) (by simp [sampleParent])
      (by simp [countId, sampleForest, sampleParent, sampleReply])).1 sampleReply []
      (by simp [sampleParent])
    exact ⟨h.1, h.2.1⟩
  · have h := (softDelete_tombstone_or_remove (some "") "c2" [0] sampleForest [sampleReply] 0
      sampleReply (by simp [subForestAt, sampleForest, sampleParent]) (by simp)
      (by simp [sampleReply])
      (by simp [countId, sampleForest, sampleParent, sampleReply])).2.1
      (by simp [sampleReply])
    exact ⟨h.1, h.2.1⟩

/-- C1 counterexample to the claim as stated: the tombstone text is not
undefined — the anime comment section writes the empty string and the
episode comment section writes "[deleted]" (`mediaUrl`, by contrast, is
indeed set to undefined). -/
theorem softDelete_tombstone_text_counterexample :
    removeOrMarkComment "c1" sampleForest
      = [CNode.mk "c1" "ada" (some "") "t1" none false (some [sampleReply]) true] ∧
    removeOrMarkCommentEpisode "c1" sampleForest
      = [CNode.mk "c1" "ada" (some "[deleted]") "t1" none false (some [sampleReply]) true] ∧
    (some "" : Option String) ≠ none ∧ (some "[deleted]" : Option String) ≠ none :=
  ⟨by simp [removeOrMarkComment, removeOrMarkWith, sampleForest, sampleParent],
   by simp [removeOrMarkCommentEpisode, removeOrMarkWith, sampleForest, sampleParent],
   by decide, by decide⟩

/-- C2 counterexample to the claim as stated: `api.deleteComment` does
not route the response through `handleResponse`, so a server-rejected
delete (resolved response with ok = false, e.g. permission denied)
resolves successfully and `handleDeleteConfirm` still applies the local
soft delete: the forest is changed although the server rejected the
deletion. -/
theorem delete_applied_despite_server_reject :
    deleteComment (.response false "forbidden") = .ok () ∧
    handleDeleteConfirm (.response false "forbidden") (some "c1") sampleLeafForest = [] ∧
    sampleLeafForest ≠ [] ∧ sampleLeafForest.length = 1 :=
  ⟨rfl,
   by simp [handleDeleteConfirm, deleteComment, removeOrMarkComment, removeOrMarkWith,
     sampleLeafForest],
   by simp [sampleLeafForest], rfl⟩

/-- C2 (amended): the local soft delete runs only after the fetch
promise resolves; a transport error (and an absent pending id) leaves
the forest unchanged, but because `deleteComment` never checks
`response.ok`, EVERY resolved response — ok or server-rejected — counts
as success and the soft delete is applied. -/
theorem handleDeleteConfirm_spec (F : List CNode) (did msg body : String) (ok : Bool)
    (outcome : FetchOutcome) :
    handleDeleteConfirm (.transportError msg) (some did) F = F ∧
    handleDeleteConfirm outcome none F = F ∧
    handleDeleteConfirm (.response ok body) (some did) F = removeOrMarkComment did F ∧
    deleteComment (.transportError msg) = .error msg ∧
    deleteComment (.response ok body) = .ok () :=
  ⟨rfl, rfl, rfl, rfl, rfl⟩

/-- C8 counterexample to the claim as stated: in the staff-chat feature,
`getInitials` of an undefined or empty name is the placeholder "U", not
the empty string. -/
theorem staffchat_initials_counterexample :
    getInitialsStaffChat none = "U" ∧ getInitialsStaffChat (some "") = "U" ∧
    ("U" : String) ≠ "" :=
  ⟨rfl, rfl, by decide⟩

/-- C8 (amended): the comment-section `getInitials` upper-cases the
first letter of each space-separated token and returns the empty string
on empty or undefined input; the staff-chat variant agrees on every
nonempty name but returns "U" on empty or undefined input. -/
theorem getInitials_spec :
    getInitials (some "Ada Lovelace") = "AL" ∧ getInitials (some "") = "" ∧
    getInitials none = "" ∧
    getInitialsStaffChat (some "Ada Lovelace") = "AL" ∧
    getInitialsStaffChat none = "U" ∧ getInitialsStaffChat (some "") = "U" ∧
    (∀ s : String, s ≠ "" → getInitialsStaffChat (some s) = getInitials (some s)) := by
  refine ⟨rfl, rfl, rfl, rfl, rfl, rfl, ?_⟩
  intro s hs
  simp [getInitials, getInitialsStaffChat, hs]

theorem getInitials_spec_witness :
    ("Ada Lovelace" : String) ≠ "" ∧
    getInitialsStaffChat (some "Ada Lovelace") = getInitials (some "Ada Lovelace") :=
  ⟨by decide, getInitials_spec.2.2.2.2.2.2 "Ada Lovelace" (by decide)⟩

/-- C9 counterexample to the claim as stated: in the `CommentSection`
component, `onReply` is exactly `setReplyTo` and does not clear a
pending edit target, so the state reached by starting an edit and then
starting a reply has BOTH the reply target and the edit target set —
mutual exclusion does not hold in every reachable state. -/
theorem compose_both_targets_reachable :
    ReachableCompose (startReply sampleParent (startEdit sampleReply initialComposeState)) ∧
    (startReply sampleParent (startEdit sampleReply initialComposeState)).replyTo.isSome
      = true ∧
    (startReply sampleParent
      (startEdit sampleReply initialComposeState)).editingComment.isSome = true :=
  ⟨.reply _ _ (.edit _ _ .init), rfl, rfl⟩

/-- C9 (amended): starting an edit clears the pending reply target and —
in the comment sections — the pending attachment (the staff chat's
`handleEditClick` clears only the reply target and leaves the attachment
fields); starting a reply, however, does not clear a pending edit
target, so a compose state with both targets set is reachable. -/
theorem compose_edit_clears_reply_not_conversely :
    (∀ (c : CNode) (s : ComposeState),
      (startEdit c s).replyTo = none ∧ (startEdit c s).mediaBase64 = none ∧
      (startEdit c s).mediaPreview = none ∧ (startEdit c s).editingComment = some c) ∧
    (∀ (m : MNode) (s : ChatComposeState),
      (handleEditClick m s).replyTo = none ∧
      (handleEditClick m s).editingMessage = some m ∧
      (handleEditClick m s).mediaBase64 = s.mediaBase64 ∧
      (handleEditClick m s).mediaPreview = s.mediaPreview) ∧
    (∀ (c : CNode) (s : ComposeState),
      (startReply c s).replyTo = some c ∧
      (startReply c s).editingComment = s.editingComment) ∧
    ReachableCompose (startReply sampleParent (startEdit sampleReply initialComposeState)) ∧
    (startReply sampleParent (startEdit sampleReply initialComposeState)).replyTo
      = some sampleParent ∧
    (startReply sampleParent
      (startEdit sampleReply initialComposeState)).editingComment = some sampleReply :=
  ⟨fun _ _ => ⟨rfl, rfl, rfl, rfl⟩, fun _ _ => ⟨rfl, rfl, rfl, rfl⟩,
   fun _ _ => ⟨rfl, rfl⟩, .reply _ _ (.edit _ _ .init), rfl, rfl⟩

/-- C3 counterexample to the claim as stated: (a) `removeOrMarkComment`
is mutating — on a heap with a parent object at address 0 whose childless
reply (address 1, id "c") is being deleted, the object at address 0 is
modified in place (its replies field is reassigned), so the input forest
is not left unmodified and the ancestor is NOT a new object (the
returned top-level list still holds address 0); (b) for `updateInState`
(editText) the off-path top-level object at address 0 is reallocated to
the fresh address 3 even though the edit targets the unrelated node at
address 2, so a node not on the path is not reference-equal to its
counterpart. -/
theorem nonmutating_claim_counterexample :
    (removeOrMarkCommentRef (some "") "c" 5 sampleHeap [0]).2 = [0] ∧
    hget (removeOrMarkCommentRef (some "") "c" 5 sampleHeap [0]).1 0
      = { heapNodeP with replies := some [] } ∧
    hget sampleHeap 0 = heapNodeP ∧ heapNodeP.replies = some [1] ∧
    ({ heapNodeP with replies := some ([] : List Nat) } : HNode) ≠ heapNodeP ∧
    (updateInStateRef "t" "new" 5 sampleHeapT [0, 2]).2 = [3, 4] ∧ (3 : Nat) ≠ 0 := by
  decide

/-- C3 (amended): `insertReply` and `editText` are non-mutating — they
never modify an existing heap object, only allocate new ones (the input
heap is an initial segment of the output heap) — while `softDelete`
(source: `removeOrMarkComment`) mutates node objects in place via the
assignment `c.replies = removeOrMarkComment(c.replies)`: on the sample
heap the existing object at address 0 is changed, so its result heap is
not an extension of the input heap. -/
theorem mutation_discipline :
    (∀ (uid t : String) (fuel : Nat) (h : Heap) (l : List Nat),
      HeapExtends h (updateInStateRef uid t fuel h l).1) ∧
    (∀ (pid : String) (reply fuel : Nat) (h : Heap) (l : List Nat),
      HeapExtends h (addReplyToCommentRef pid reply fuel h l).1) ∧
    (removeOrMarkCommentRef (some "") "c" 5 sampleHeap [0]).1
      = [{ heapNodeP with replies := some [] }, heapNodeC] ∧
    ¬ HeapExtends sampleHeap (removeOrMarkCommentRef (some "") "c" 5 sampleHeap [0]).1 := by
  refine ⟨fun uid t => updateInStateRef_extends uid t,
    fun pid reply => addReplyToCommentRef_extends pid reply, by decide, ?_⟩
  rintro ⟨u, hu⟩
  have hx : (removeOrMarkCommentRef (some "") "c" 5 sampleHeap [0]).1
      = [{ heapNodeP with replies := some [] }, heapNodeC] := by decide
  rw [hx] at hu
  have h0 : ({ heapNodeP with replies := some [] } : HNode) = heapNodeP := by
    have := congrArg (fun (w : Heap) => w[0]?) hu
    simpa [sampleHeap] using this
  exact absurd h0 (by decide)
